import Mathlib

/-
Verification development for nova/virt/libvirt/migration.py.

The Python module is shallowly embedded below:
  * times and counters become Int (Python ints),
  * the libvirt guest capabilities become explicit function parameters,
  * exceptions become Except String results,
  * lxml element trees become the inductive type Xml, with in-place
    mutation replaced by functions returning the updated tree.
-/

namespace Migration

/-! ## AbortPolicy: should_abort (migration.py lines 169-199) -/

/-- Embedding of should_abort.  The instance argument is only used for
logging in the source and is omitted.  Times are Python ints (secs). -/
def should_abort (now progress_time progress_timeout elapsed
    completion_timeout : Int) : Bool :=
  if progress_timeout != 0 && (now - progress_time) > progress_timeout then
    true
  else if completion_timeout != 0 && elapsed > completion_timeout then
    true
  else
    false

/-! ## OutcomeResolver: find_job_type (migration.py lines 133-166) -/

/-- Classified failure of the guest-activity query: a libvirtError carrying
the code returned by get_error_code(). -/
structure LibvirtError where
  code : Int
  detail : String
deriving DecidableEq

/-- The libvirt error code VIR_ERR_NO_DOMAIN ("no such domain"). -/
def VIR_ERR_NO_DOMAIN : Int := 42

/-- The two job type constants find_job_type can return. -/
inductive JobType where
  | completed
  | failed
deriving DecidableEq

/-- Embedding of find_job_type.  The call guest.is_active() is modelled by
its outcome: either a Bool or a raised libvirtError. -/
def find_job_type (isActive : Except LibvirtError Bool) : JobType :=
  match isActive with
  | .ok true => .failed
  | .ok false => .completed
  | .error ex =>
      if ex.code == VIR_ERR_NO_DOMAIN then .completed else .failed

/-! ## DowntimeScheduler: update_downtime (migration.py lines 202-255) -/

/-- The selection loop of update_downtime: thisstep starts as None and is
overwritten by every step whose time marker is exceeded. -/
def downtime_select (steps : List (Int × Int)) (elapsed : Int) :
    Option (Int × Int) :=
  List.foldl (fun acc step => if elapsed > step.1 then some step else acc)
    none steps

/-- Embedding of update_downtime.  The capability
guest.migrate_configure_max_downtime is the parameter apply; its failures
(libvirtError) are caught and only logged.  The result pairs the returned
downtime with the list of arguments passed to apply, so the side effect is
observable; the Except layer shows that no failure escapes the function. -/
def update_downtime (apply : Int → Except String Unit)
    (olddowntime : Option Int) (downtime_steps : List (Int × Int))
    (elapsed : Int) : Except String (Option Int × List Int) :=
  match downtime_select downtime_steps elapsed with
  | none => .ok (olddowntime, [])
  | some thisstep =>
      if some thisstep.2 == olddowntime then
        .ok (olddowntime, [])
      else
        match apply thisstep.2 with
        | .ok _ => .ok (some thisstep.2, [thisstep.2])
        | .error _ => .ok (some thisstep.2, [thisstep.2])

/-! ## DescriptorPatcher: the lxml element tree model

An lxml element has a tag, attributes, text, tail text and children.
In-place mutation is replaced by functions returning new trees; a raised
Python exception becomes an Except error.  Serialization
(etree.fromstring / tostring) is outside the model: the patch is studied
as a tree-to-tree transformation. -/

inductive Xml where
  | elem (tag : String) (attrs : List (String × String)) (text : Option String)
      (tail : Option String) (children : List Xml)

/-- The element's tag. -/
def Xml.tag : Xml → String
  | .elem t _ _ _ _ => t

/-- The element's attribute list (unique keys as produced by the parser). -/
def Xml.attrs : Xml → List (String × String)
  | .elem _ a _ _ _ => a

/-- The element's text. -/
def Xml.text : Xml → Option String
  | .elem _ _ x _ _ => x

/-- The element's tail text. -/
def Xml.tail : Xml → Option String
  | .elem _ _ _ tl _ => tl

/-- The element's list of children. -/
def Xml.children : Xml → List Xml
  | .elem _ _ _ _ cs => cs

/-- Replace the element's children. -/
def Xml.withChildren : Xml → List Xml → Xml
  | .elem t a x tl _, cs => .elem t a x tl cs

/-- Replace the element's tail text (item.tail = value). -/
def Xml.withTail : Xml → Option String → Xml
  | .elem t a x _ cs, tl => .elem t a x tl cs

/-- Update an attribute list: replace the value of an existing key in
place, else append the pair, as libxml2 does. -/
def setPairs (k v : String) : List (String × String) →
    List (String × String)
  | [] => [(k, v)]
  | p :: rest => if p.1 == k then (k, v) :: rest else p :: setPairs k v rest

/-- Embedding of element.get(key). -/
def Xml.getAttr (n : Xml) (k : String) : Option String :=
  (n.attrs.find? (fun p => p.1 == k)).map Prod.snd

/-- Embedding of element.set(key, value) with a string value. -/
def Xml.setAttr (n : Xml) (k v : String) : Xml :=
  match n with
  | .elem t a x tl cs => .elem t (setPairs k v a) x tl cs

/-- Embedding of element.set(key, value) where the value may be Python
None: lxml raises TypeError on a None value. -/
def Xml.setAttrOpt (n : Xml) (k : String) : Option String → Except String Xml
  | none => .error "TypeError: Argument must be bytes or unicode, got NoneType"
  | some v => .ok (n.setAttr k v)

/-- Embedding of element.findtext(tag): the text of the first child with
the given tag, the empty string standing in for absent text, and Python
None (here none) when no child matches. -/
def Xml.findtext (n : Xml) (t : String) : Option String :=
  (n.children.find? (fun c => c.tag == t)).map (fun c => c.text.getD "")

/-- Replace the first child carrying the given tag.  This realises the
in-place mutation of the node returned by element.find(tag). -/
def updateFirstTagged (t : String) (newNode : Xml) : List Xml → List Xml
  | [] => []
  | c :: rest =>
      if c.tag == t then newNode :: rest
      else c :: updateFirstTagged t newNode rest

/-- Transform, left to right, every element of the list satisfying p,
stopping at the first raised error, as a Python for loop over matching
nodes does. -/
def mapFiltered (p : Xml → Bool) (f : Xml → Except String Xml) :
    List Xml → Except String (List Xml)
  | [] => .ok []
  | c :: rest =>
      match (if p c then f c else .ok c) with
      | .error e => .error e
      | .ok c2 =>
          match mapFiltered p f rest with
          | .error e => .error e
          | .ok rest2 => .ok (c2 :: rest2)

/-- Apply a children-list transformation to a node. -/
def overChildren (f : List Xml → Except String (List Xml)) (n : Xml) :
    Except String Xml :=
  match f n.children with
  | .error e => .error e
  | .ok cs => .ok (n.withChildren cs)

/-- Embedding of iterating xml_doc.findall of a two-level path whose first
step is the devices element, mutating each found node: every child of
every devices child satisfying p is transformed by f in place. -/
def patchDoc (p : Xml → Bool) (f : Xml → Except String Xml) (doc : Xml) :
    Except String Xml :=
  overChildren (mapFiltered (fun c => c.tag == "devices")
    (overChildren (mapFiltered p f))) doc

/-! ## Migration context (LibvirtLiveMigrateData) -/

/-- A BlockDeviceMapping entry of migrate_data.bdms.  connection_info is
none when the attribute is Python-falsy (absent or empty); disk_info is
the opaque payload of as_disk_info(). -/
structure Bdm where
  serial : String
  connection_info : Option String
  disk_info : String
deriving DecidableEq

/-- The migration context.  An unset object attribute
(obj_attr_is_set false) is none; a set attribute holds its str() form. -/
structure MigrateData where
  graphics_listen_addr_vnc : Option String
  graphics_listen_addr_spice : Option String
  serial_listen_addr : Option String
  bdms : List Bdm

/-- Embedding of graphics_listen_addrs (migration.py lines 34-45): none
when neither graphics address attribute is set, otherwise the pair of the
vnc and spice entries of the dict. -/
def graphics_listen_addrs (md : MigrateData) :
    Option (Option String × Option String) :=
  if md.graphics_listen_addr_vnc.isSome
      || md.graphics_listen_addr_spice.isSome then
    some (md.graphics_listen_addr_vnc, md.graphics_listen_addr_spice)
  else
    none

/-- Embedding of serial_listen_addr (migration.py lines 48-53). -/
def serial_listen_addr (md : MigrateData) : Option String :=
  md.serial_listen_addr

/-- Embedding of the dict subscript listen_addrs[gr_type]: subscripting
Python None raises TypeError.  Only called with gr_type vnc or spice. -/
def lookupAddr : Option (Option String × Option String) → String →
    Except String (Option String)
  | none, _ => .error "TypeError: NoneType object is not subscriptable"
  | some addrs, t => .ok (if t == "vnc" then addrs.1 else addrs.2)

/-! ## Graphics patch (migration.py lines 64-76) -/

/-- The body of the loop of update_graphics_xml for one graphics node. -/
def update_graphics_node (addrs : Option (Option String × Option String))
    (dev : Xml) : Except String Xml :=
  let gr_type := dev.getAttr "type"
  let listen_tag := dev.children.find? (fun c => c.tag == "listen")
  if gr_type == some "vnc" || gr_type == some "spice" then
    let step1 : Except String Xml :=
      match listen_tag with
      | some lt =>
          match lookupAddr addrs (gr_type.getD "") with
          | .error e => .error e
          | .ok addr =>
              match lt.setAttrOpt "address" addr with
              | .error e => .error e
              | .ok lt2 =>
                  .ok (dev.withChildren
                    (updateFirstTagged "listen" lt2 dev.children))
      | none => .ok dev
    match step1 with
    | .error e => .error e
    | .ok dev1 =>
        match dev1.getAttr "listen" with
        | some _ =>
            match lookupAddr addrs (gr_type.getD "") with
            | .error e => .error e
            | .ok addr => dev1.setAttrOpt "listen" addr
        | none => .ok dev1
  else
    .ok dev

/-- Embedding of update_graphics_xml. -/
def update_graphics_xml (md : MigrateData) (doc : Xml) : Except String Xml :=
  patchDoc (fun c => c.tag == "graphics")
    (update_graphics_node (graphics_listen_addrs md)) doc

/-! ## Serial patch (migration.py lines 79-87) -/

/-- The body of the loops of update_serial_xml for one source node: an
existing host attribute is overwritten with the listen address; lxml
raises TypeError when that address is Python None. -/
def update_source_host (la : Option String) (src : Xml) : Except String Xml :=
  match src.getAttr "host" with
  | some _ => src.setAttrOpt "host" la
  | none => .ok src

/-- The findall filter of the serial patch: a node with the given tag and
a type attribute equal to tcp. -/
def tcpTagged (t : String) (c : Xml) : Bool :=
  c.tag == t && c.getAttr "type" == some "tcp"

/-- The transformation the serial patch performs on each matched serial
or console node: rewrite the host attribute of its source children. -/
def serial_source_update (la : Option String) : Xml → Except String Xml :=
  overChildren (mapFiltered (fun c => c.tag == "source")
    (update_source_host la))

/-- Embedding of update_serial_xml: the serial pass, then the console
pass. -/
def update_serial_xml (md : MigrateData) (doc : Xml) : Except String Xml :=
  let la := serial_listen_addr md
  match patchDoc (tcpTagged "serial") (serial_source_update la) doc with
  | .error e => .error e
  | .ok d1 => patchDoc (tcpTagged "console") (serial_source_update la) d1

/-! ## Volume patch (migration.py lines 90-130) -/

/-- Embedding of the dict bdm_info_by_serial built by comprehension: a
later entry with an equal serial overwrites an earlier one. -/
def bdm_by_serial (bdms : List Bdm) (s : String) : Option Bdm :=
  bdms.reverse.find? (fun b => b.serial == s)

/-- Remove the first element carrying the given tag: the destination item
moved out of xml_doc2 when disk_dev.insert adopts it. -/
def removeFirstTagged (t : String) : List Xml → List Xml
  | [] => []
  | d :: rest => if d.tag == t then rest else d :: removeFirstTagged t rest

/-- Embedding of the same-tag replacement loop of update_volume_xml
(lines 117-123) on the children of one disk node, returning the new
children together with the children left in the destination fragment.

lxml iteration follows sibling links and fetches the next sibling before
the loop body runs, so removing item_src and inserting the destination
item at the same index cnt neither skips nor revisits a child; the
enumeration therefore advances one position per iteration.  When findall
yields a second destination item with the same tag, the second
disk_dev.remove(item_src) call raises ValueError because item_src has
already been moved out. -/
def mergeLoop : List Xml → List Xml → Except String (List Xml × List Xml)
  | [], dest => .ok ([], dest)
  | c :: rest, dest =>
      match dest.filter (fun d => d.tag == c.tag) with
      | [] =>
          match mergeLoop rest dest with
          | .error e => .error e
          | .ok pr => .ok (c :: pr.1, pr.2)
      | [d] =>
          match mergeLoop rest (removeFirstTagged c.tag dest) with
          | .error e => .error e
          | .ok pr => .ok (d.withTail none :: pr.1, pr.2)
      | _ => .error "ValueError: Element is not a child of this node."

/-- Embedding of the trailing loop of update_volume_xml (lines 127-129):
every remaining destination child, tail cleared, is inserted at index
cnt, the final value of the enumeration counter, that is one before the
last of the n children; successive inserts at a fixed index reverse the
remaining items. -/
def insertExtras (merged rem : List Xml) : List Xml :=
  merged.take (merged.length - 1)
    ++ (rem.map (fun d => d.withTail none)).reverse
    ++ merged.drop (merged.length - 1)

/-- Embedding of the body of update_volume_xml for one disk node.  The
provider capability gvc models get_volume_config composed with parsing
conf.to_xml(): it returns the destination fragment for the connection
info and disk info of the matched BlockDeviceMapping.  The guard
serial_source not in bdm_info_by_serial of the source is subsumed by
bdm_by_serial returning none and is folded into that case. -/
def update_volume_disk (bdms : List Bdm) (gvc : String → String → Xml)
    (disk : Xml) : Except String Xml :=
  match disk.findtext "serial" with
  | none => .ok disk
  | some serial_source =>
    match bdm_by_serial bdms serial_source with
    | none => .ok disk
    | some bdm_info =>
      match bdm_info.connection_info with
      | none => .ok disk
      | some ci =>
        let frag := gvc ci bdm_info.disk_info
        let serial_dest := frag.findtext "serial"
        if (match serial_dest with
            | some sd => sd != "" && sd == serial_source
            | none => false) then
          match mergeLoop disk.children frag.children with
          | .error e => .error e
          | .ok pr =>
              if pr.1.length == 0 then
                if pr.2.length == 0 then .ok (disk.withChildren pr.1)
                else .error "NameError: name cnt is not defined"
              else
                .ok (disk.withChildren (insertExtras pr.1 pr.2))
        else
          .ok disk

/-- Embedding of update_volume_xml. -/
def update_volume_xml (md : MigrateData) (gvc : String → String → Xml)
    (doc : Xml) : Except String Xml :=
  patchDoc (fun c => c.tag == "disk") (update_volume_disk md.bdms gvc) doc

/-- Embedding of get_updated_guest_xml (migration.py lines 56-61) as a
tree transformation: graphics, then serial, then volume patch. -/
def get_updated_guest_xml (md : MigrateData) (gvc : String → String → Xml)
    (doc : Xml) : Except String Xml :=
  match update_graphics_xml md doc with
  | .error e => .error e
  | .ok d1 =>
      match update_serial_xml md d1 with
      | .error e => .error e
      | .ok d2 => update_volume_xml md gvc d2

/-! ## Helper lemmas for the downtime scheduler -/

/-- The selection loop keeps the last qualifying step: it equals the first
qualifying step of the reversed list. -/
theorem downtime_select_eq_reverse_find (steps : List (Int × Int))
    (elapsed : Int) :
    downtime_select steps elapsed =
      steps.reverse.find? (fun s => decide (s.1 < elapsed)) := by
  induction steps using List.reverseRecOn with
  | nil => rfl
  | append_singleton xs x ih =>
      by_cases h : x.1 < elapsed
      · simp [downtime_select, List.foldl_append, h]
      · simp [downtime_select, List.foldl_append, h]
        simpa [downtime_select] using ih

/-- The selection loop returns none exactly when no step qualifies. -/
theorem downtime_select_eq_none_iff (steps : List (Int × Int))
    (elapsed : Int) :
    downtime_select steps elapsed = none ↔
      ∀ st ∈ steps, ¬ st.1 < elapsed := by
  rw [downtime_select_eq_reverse_find, List.find?_eq_none]
  constructor
  · intro h st hst
    have := h st (by simpa using List.mem_reverse.mpr hst)
    simpa using this
  · intro h st hst
    have := h st (List.mem_reverse.mp hst)
    simpa using this

/-! ## Claims C1, C2, C3, C4, C10 -/

/-- C1: should_abort returns true iff the progress timeout is nonzero and
now - progress_time strictly exceeds it, or the completion timeout is
nonzero and elapsed strictly exceeds it; a zero timeout disables its
check and equality does not trigger an abort. -/
theorem should_abort_spec (now progress_time progress_timeout elapsed
    completion_timeout : Int) :
    should_abort now progress_time progress_timeout elapsed
        completion_timeout = true ↔
      (progress_timeout ≠ 0 ∧ now - progress_time > progress_timeout) ∨
      (completion_timeout ≠ 0 ∧ elapsed > completion_timeout) := by
  unfold should_abort
  by_cases h1 : progress_timeout = 0 <;>
    by_cases h2 : now - progress_time > progress_timeout <;>
      by_cases h3 : completion_timeout = 0 <;>
        by_cases h4 : elapsed > completion_timeout <;>
          simp [h1, h2, h3, h4]

/-- C2: update_downtime selects the last step in sequence order whose
threshold is strictly below elapsed (the first of the reversed list);
with no qualifying step it returns olddowntime with no apply call, with a
selected value equal to olddowntime it returns olddowntime with no apply
call, and otherwise it returns the selected value after one apply call. -/
theorem update_downtime_spec (apply : Int → Except String Unit)
    (olddowntime : Option Int) (steps : List (Int × Int)) (elapsed : Int) :
    update_downtime apply olddowntime steps elapsed =
      match steps.reverse.find? (fun s => decide (s.1 < elapsed)) with
      | none => .ok (olddowntime, [])
      | some s =>
          if some s.2 = olddowntime then .ok (olddowntime, [])
          else .ok (some s.2, [s.2]) := by
  unfold update_downtime
  rw [downtime_select_eq_reverse_find]
  cases hf : steps.reverse.find? (fun s => decide (s.1 < elapsed)) with
  | none => rfl
  | some s =>
      by_cases he : some s.2 = olddowntime
      · simp [he]
      · simp only [beq_iff_eq, if_neg he]
        cases apply s.2 <;> rfl

/-- C3: find_job_type maps every outcome of the guest-activity query to
exactly one of completed or failed: an active guest gives failed, an
inactive guest gives completed, a query failure with the no-domain code
gives completed, and any other failure gives failed. -/
theorem find_job_type_cases (q : Except LibvirtError Bool) :
    (q = .ok true → find_job_type q = .failed) ∧
    (q = .ok false → find_job_type q = .completed) ∧
    (∀ ex, q = .error ex → ex.code = VIR_ERR_NO_DOMAIN →
        find_job_type q = .completed) ∧
    (∀ ex, q = .error ex → ex.code ≠ VIR_ERR_NO_DOMAIN →
        find_job_type q = .failed) := by
  refine ⟨fun h => ?_, fun h => ?_, fun ex h hc => ?_, fun ex h hc => ?_⟩
  · subst h; rfl
  · subst h; rfl
  · subst h; simp [find_job_type, hc]
  · subst h; simp [find_job_type, hc]

/-- Witness for C3 at the concrete outcome of an active guest. -/
theorem find_job_type_cases_witness :
    find_job_type (.ok true) = .failed :=
  (find_job_type_cases (.ok true)).1 rfl

/-- C4: when a step is selected whose downtime value differs from
olddowntime, the result is the selected value and one apply call
regardless of the apply capability; in particular an apply failure is
swallowed and the same value is still returned. -/
theorem update_downtime_apply_failure_irrelevant (olddowntime : Option Int)
    (steps : List (Int × Int)) (elapsed : Int) (s : Int × Int)
    (apply apply2 : Int → Except String Unit)
    (hsel : downtime_select steps elapsed = some s)
    (hne : some s.2 ≠ olddowntime) :
    update_downtime apply olddowntime steps elapsed
        = .ok (some s.2, [s.2]) ∧
    update_downtime apply olddowntime steps elapsed
        = update_downtime apply2 olddowntime steps elapsed := by
  unfold update_downtime
  rw [hsel]
  simp only [beq_iff_eq, if_neg hne]
  cases apply s.2 <;> cases apply2 s.2 <;> exact ⟨rfl, rfl⟩

/-- Witness for C4: a failing apply capability still advances the
tracked downtime to 100. -/
theorem update_downtime_apply_failure_irrelevant_witness :
    downtime_select [((0 : Int), (100 : Int))] 5 = some (0, 100) ∧
    (some (100 : Int) ≠ (none : Option Int)) ∧
    update_downtime (fun _ => .error "libvirtError") none [(0, 100)] 5
      = .ok (some 100, [100]) :=
  ⟨rfl, by decide,
    (update_downtime_apply_failure_irrelevant none [(0, 100)] 5 (0, 100)
      (fun _ => .error "libvirtError") (fun _ => .ok ()) rfl
      (by decide)).1⟩

/-- C10: with olddowntime unset and at least one qualifying step, the
no-op equality branch cannot trigger: the apply capability is invoked
with the selected value and that value is returned. -/
theorem update_downtime_unset_always_applies (steps : List (Int × Int))
    (elapsed : Int) (apply : Int → Except String Unit)
    (h : ∃ st ∈ steps, st.1 < elapsed) :
    ∃ s, downtime_select steps elapsed = some s ∧
      update_downtime apply none steps elapsed = .ok (some s.2, [s.2]) := by
  cases hsel : downtime_select steps elapsed with
  | none =>
      obtain ⟨st, hmem, hlt⟩ := h
      exact absurd hlt
        ((downtime_select_eq_none_iff steps elapsed).mp hsel st hmem)
  | some s =>
      refine ⟨s, rfl, ?_⟩
      unfold update_downtime
      rw [hsel]
      simp only [beq_iff_eq, reduceIte]
      cases apply s.2 <;> rfl

/-- Witness for C10 at a one-step table. -/
theorem update_downtime_unset_always_applies_witness :
    (∃ st ∈ [((0 : Int), (100 : Int))], st.1 < 5) ∧
    (∃ s, downtime_select [((0 : Int), (100 : Int))] 5 = some s ∧
      update_downtime (fun _ => .ok ()) none [(0, 100)] 5
        = .ok (some s.2, [s.2])) :=
  ⟨⟨(0, 100), by decide, by decide⟩,
    update_downtime_unset_always_applies [(0, 100)] 5 (fun _ => .ok ())
      ⟨(0, 100), by decide, by decide⟩⟩

/-! ## Claim C5: the volume patch skips unmatched disks -/

/-- C5: a disk node whose serial leaf is absent, or with no matching
BlockDeviceMapping, or whose match lacks connection-info, is returned
unchanged without error, and the result does not depend on the provider
capability, which is therefore never consulted for that disk. -/
theorem update_volume_disk_skip (bdms : List Bdm) (disk : Xml)
    (h : disk.findtext "serial" = none
       ∨ (∃ s, disk.findtext "serial" = some s ∧ bdm_by_serial bdms s = none)
       ∨ (∃ s b, disk.findtext "serial" = some s
            ∧ bdm_by_serial bdms s = some b ∧ b.connection_info = none)) :
    ∀ gvc : String → String → Xml,
      update_volume_disk bdms gvc disk = .ok disk := by
  intro gvc
  rcases h with h | ⟨s, hs, hb⟩ | ⟨s, b, hs, hb, hc⟩
  · simp only [update_volume_disk, h]
  · simp only [update_volume_disk, hs, hb]
  · simp only [update_volume_disk, hs, hb, hc]

/-- Witness for C5 at a disk node without a serial leaf. -/
theorem update_volume_disk_skip_witness :
    (Xml.elem "disk" [] none none []).findtext "serial" = none ∧
    update_volume_disk [] (fun _ _ => Xml.elem "disk" [] none none [])
      (Xml.elem "disk" [] none none []) = .ok (Xml.elem "disk" [] none none []) :=
  ⟨rfl, update_volume_disk_skip [] (Xml.elem "disk" [] none none [])
    (Or.inl rfl) (fun _ _ => Xml.elem "disk" [] none none [])⟩

/-! ## Claim C7: the serial patch and an unset listen address -/

/-- A context with no listen addresses set at all. -/
def mdUnsetAll : MigrateData := ⟨none, none, none, []⟩

/-- A descriptor with one TCP serial console whose source carries a host
attribute. -/
def docTcpSerial : Xml := .elem "domain" [] none none
  [ .elem "devices" [] none none
    [ .elem "serial" [("type", "tcp")] none none
      [ .elem "source" [("host", "9.9.9.9"), ("service", "10000")]
          none none [] ] ] ]

/-- Counterexample to C7 as stated: with no serial listen address in the
context, a TCP serial source node carrying a host attribute is not left
unmodified: the patch raises TypeError, because the source assigns the
Python None address unconditionally and lxml rejects a None attribute
value. -/
theorem update_serial_xml_unset_addr_raises :
    update_serial_xml mdUnsetAll docTcpSerial =
      .error "TypeError: Argument must be bytes or unicode, got NoneType" := by
  rfl

/-- C7 (amended): for a source child carrying a host attribute the serial
patch overwrites it with the listen address when the context supplies
one, and raises TypeError when it does not; a source child without a
host attribute is left unmodified either way. -/
theorem update_source_host_cases (src : Xml) :
    (∀ la hostv, src.getAttr "host" = some hostv →
        update_source_host (some la) src = .ok (src.setAttr "host" la)) ∧
    (src.getAttr "host" = none →
        ∀ la, update_source_host la src = .ok src) ∧
    (∀ hostv, src.getAttr "host" = some hostv →
        update_source_host none src =
          .error "TypeError: Argument must be bytes or unicode, got NoneType") := by
  refine ⟨fun la hostv h => ?_, fun h la => ?_, fun hostv h => ?_⟩ <;>
    unfold update_source_host <;> rw [h] <;> rfl

/-- Witness for C7 (amended) at a concrete source node. -/
theorem update_source_host_cases_witness :
    (Xml.elem "source" [("host", "9.9.9.9")] none none []).getAttr "host"
        = some "9.9.9.9" ∧
    update_source_host (some "10.0.0.1")
        (Xml.elem "source" [("host", "9.9.9.9")] none none []) =
      .ok ((Xml.elem "source" [("host", "9.9.9.9")] none none []).setAttr
        "host" "10.0.0.1") :=
  ⟨rfl, (update_source_host_cases
    (Xml.elem "source" [("host", "9.9.9.9")] none none [])).1
    "10.0.0.1" "9.9.9.9" rfl⟩

/-! ## Claim C8: the graphics patch and a missing listen address -/

/-- A descriptor with one vnc graphics node carrying both a listen child
and a listen attribute. -/
def docVncGraphics : Xml := .elem "domain" [] none none
  [ .elem "devices" [] none none
    [ .elem "graphics" [("type", "vnc"), ("listen", "1.2.3.4")] none none
      [ .elem "listen" [("type", "address"), ("address", "1.2.3.4")]
          none none [] ] ] ]

/-- Counterexample to C8 as stated: with no graphics listen address in
the context, the graphics patch does not skip a vnc node carrying listen
information: it raises TypeError from subscripting the absent (None)
address dict. -/
theorem update_graphics_xml_unset_addr_raises :
    update_graphics_xml mdUnsetAll docVncGraphics =
      .error "TypeError: NoneType object is not subscriptable" := by
  rfl

/-- C8 (amended): for a graphics node of type vnc or spice for which the
context supplies no listen address of that type (either no graphics
address attribute is set, so the dict is None, or the dict entry for the
type is None), the node is left unchanged without error only when it has
neither a listen child nor a listen attribute; when it has either, the
graphics patch fails instead of skipping the node. -/
theorem update_graphics_node_missing_addr
    (addrs : Option (Option String × Option String)) (dev : Xml)
    (t : String) (htype : dev.getAttr "type" = some t)
    (hvs : t = "vnc" ∨ t = "spice")
    (hmiss : lookupAddr addrs t = .ok none
       ∨ ∃ e, lookupAddr addrs t = .error e) :
    (dev.children.find? (fun c => c.tag == "listen") = none ∧
        dev.getAttr "listen" = none →
      update_graphics_node addrs dev = .ok dev) ∧
    ((dev.children.find? (fun c => c.tag == "listen")).isSome ∨
        (dev.getAttr "listen").isSome →
      ∃ e, update_graphics_node addrs dev = .error e) := by
  have hcond : ((some t : Option String) == some "vnc"
      || (some t : Option String) == some "spice") = true := by
    rcases hvs with h | h <;> subst h <;> simp
  constructor
  · rintro ⟨hfind, hattr⟩
    simp only [update_graphics_node, htype, hfind, hcond, if_true, hattr]
  · intro hsome
    cases hfind : dev.children.find? (fun c => c.tag == "listen") with
    | some lt =>
        rcases hmiss with hm | ⟨e, hm⟩
        · exact ⟨"TypeError: Argument must be bytes or unicode, got NoneType",
            by simp only [update_graphics_node, htype, hfind, hcond,
              if_true, Option.getD_some, hm, Xml.setAttrOpt]⟩
        · exact ⟨e, by simp only [update_graphics_node, htype, hfind, hcond,
            if_true, Option.getD_some, hm]⟩
    | none =>
        rcases hsome with hs | hs
        · rw [hfind] at hs; cases hs
        · cases hattr : dev.getAttr "listen" with
          | none => rw [hattr] at hs; cases hs
          | some v =>
              rcases hmiss with hm | ⟨e, hm⟩
              · exact ⟨"TypeError: Argument must be bytes or unicode, got NoneType",
                  by simp only [update_graphics_node, htype, hfind,
                    hcond, if_true, hattr, Option.getD_some, hm,
                    Xml.setAttrOpt]⟩
              · exact ⟨e, by simp only [update_graphics_node, htype, hfind,
                  hcond, if_true, hattr, Option.getD_some, hm]⟩

/-- Witness for C8 (amended): a vnc node with no listen child and no
listen attribute passes through unchanged when no address is set. -/
theorem update_graphics_node_missing_addr_witness :
    (Xml.elem "graphics" [("type", "vnc")] none none []).getAttr "type"
        = some "vnc" ∧
    lookupAddr none "vnc"
        = .error "TypeError: NoneType object is not subscriptable" ∧
    update_graphics_node none (Xml.elem "graphics" [("type", "vnc")]
        none none []) = .ok (Xml.elem "graphics" [("type", "vnc")]
        none none []) :=
  ⟨rfl, rfl,
    (update_graphics_node_missing_addr none
      (Xml.elem "graphics" [("type", "vnc")] none none []) "vnc" rfl
      (Or.inl rfl) (Or.inr ⟨_, rfl⟩)).1 ⟨rfl, rfl⟩⟩

/-! ## Characterization of the merge loop under unique destination tags -/

/-- Total description of the children produced by the replacement loop
when every destination tag is unique: a child is replaced by the
destination item of its tag, tail cleared, whenever such an item is still
unconsumed; each match consumes its destination item. -/
def mergeSpecList : List Xml → List Xml → List Xml
  | [], _ => []
  | c :: rest, dest =>
      match dest.find? (fun d => d.tag == c.tag) with
      | some d =>
          d.withTail none :: mergeSpecList rest (removeFirstTagged c.tag dest)
      | none => c :: mergeSpecList rest dest

/-- Total description of the destination items left over after the
replacement loop under unique destination tags. -/
def mergeSpecRem : List Xml → List Xml → List Xml
  | [], dest => dest
  | c :: rest, dest =>
      match dest.find? (fun d => d.tag == c.tag) with
      | some _ => mergeSpecRem rest (removeFirstTagged c.tag dest)
      | none => mergeSpecRem rest dest

/-- With pairwise distinct tags, filtering by one tag gives the empty
list or the singleton of the element find? locates. -/
theorem filter_tag_of_nodup (ds : List Xml) (t : String)
    (h : (ds.map Xml.tag).Nodup) :
    ds.filter (fun d => d.tag == t) =
      match ds.find? (fun d => d.tag == t) with
      | some d => [d]
      | none => [] := by
  induction ds with
  | nil => rfl
  | cons d0 rest ih =>
      rw [List.map_cons, List.nodup_cons] at h
      by_cases h0 : d0.tag = t
      · have hrest : rest.filter (fun d => d.tag == t) = [] := by
          rw [List.filter_eq_nil_iff]
          intro x hx
          simp only [beq_iff_eq]
          intro hxt
          exact h.1 (by rw [h0, ← hxt]; exact List.mem_map_of_mem Xml.tag hx)
        simp [List.filter_cons, List.find?_cons, h0, hrest]
      · simp only [List.filter_cons, List.find?_cons]
        have : (d0.tag == t) = false := by simp [h0]
        rw [this]
        simp only [Bool.false_eq_true, if_false]
        exact ih h.2

/-- removeFirstTagged yields a sublist. -/
theorem removeFirstTagged_sublist (t : String) (ds : List Xml) :
    (removeFirstTagged t ds).Sublist ds := by
  induction ds with
  | nil => simp [removeFirstTagged]
  | cons d rest ih =>
      simp only [removeFirstTagged]
      by_cases h : d.tag = t
      · simp [h]
      · have : (d.tag == t) = false := by simp [h]
        rw [this]
        simp only [Bool.false_eq_true, if_false]
        exact List.Sublist.cons₂ d ih

/-- Tag uniqueness survives removing the first item of a tag. -/
theorem nodup_removeFirstTagged (t : String) (ds : List Xml)
    (h : (ds.map Xml.tag).Nodup) :
    ((removeFirstTagged t ds).map Xml.tag).Nodup :=
  h.sublist (List.Sublist.map Xml.tag (removeFirstTagged_sublist t ds))

/-- Under pairwise distinct destination tags the replacement loop cannot
raise: it returns exactly the children and leftover described by
mergeSpecList and mergeSpecRem. -/
theorem mergeLoop_eq_spec (cs ds : List Xml)
    (h : (ds.map Xml.tag).Nodup) :
    mergeLoop cs ds = .ok (mergeSpecList cs ds, mergeSpecRem cs ds) := by
  induction cs generalizing ds with
  | nil => rfl
  | cons c rest ih =>
      have hfilter := filter_tag_of_nodup ds c.tag h
      cases hfind : ds.find? (fun d => d.tag == c.tag) with
      | none =>
          rw [hfind] at hfilter
          simp only [mergeLoop, hfilter, ih ds h, mergeSpecList, mergeSpecRem,
            hfind]
      | some d =>
          rw [hfind] at hfilter
          simp only [mergeLoop, hfilter,
            ih (removeFirstTagged c.tag ds) (nodup_removeFirstTagged _ _ h),
            mergeSpecList, mergeSpecRem, hfind]

/-! ## Claim C9: the replacement loop does not skip children -/

/-- A disk node with two consecutive children, driver then source, ahead
of its serial leaf. -/
def diskConsecutive : Xml := .elem "disk" [] none none
  [ .elem "driver" [("name", "raw")] none none []
  , .elem "source" [("file", "/src/a")] none none []
  , .elem "serial" [] (some "S1") none [] ]

/-- A destination fragment redefining driver, source and serial. -/
def fragConsecutive : Xml := .elem "disk" [] none none
  [ .elem "driver" [("name", "qemu")] none none []
  , .elem "source" [("file", "/dst/b")] none none []
  , .elem "serial" [] (some "S1") none [] ]

/-- Counterexample to C9 as stated: lxml fetches the next sibling before
the loop body runs, so removing the current child and inserting the
replacement at the same index does not skip the next child.  Here driver
and source are consecutive children, both with a matching-tag child in
the destination fragment, and both are replaced: the child immediately
following the replaced driver is considered and rewritten to the
destination's source, which differs from the original. -/
theorem volume_merge_replaces_following_child :
    update_volume_disk [⟨"S1", some "ci", "di"⟩] (fun _ _ => fragConsecutive)
        diskConsecutive =
      .ok (.elem "disk" [] none none
        [ .elem "driver" [("name", "qemu")] none none []
        , .elem "source" [("file", "/dst/b")] none none []
        , .elem "serial" [] (some "S1") none [] ]) ∧
    (Xml.elem "source" [("file", "/dst/b")] none none []) ≠
      (Xml.elem "source" [("file", "/src/a")] none none []) := by
  refine ⟨rfl, fun hcontra => ?_⟩
  simp only [Xml.elem.injEq] at hcontra
  exact absurd hcontra.2.1 (by decide)

/-- C9 (amended): the loop considers every child in order: when the first
two children of the scan each still have a matching-tag item among the
(pairwise distinct tagged) destination children, both are replaced, the
second immediately after the first; a following child goes unreplaced
only when its destination item was already consumed, not because the
enumeration skips it. -/
theorem mergeLoop_considers_following_child (c1 c2 : Xml)
    (rest ds : List Xml) (d1 d2 : Xml)
    (h : (ds.map Xml.tag).Nodup)
    (h1 : ds.find? (fun d => d.tag == c1.tag) = some d1)
    (h2 : (removeFirstTagged c1.tag ds).find? (fun d => d.tag == c2.tag)
        = some d2) :
    mergeLoop (c1 :: c2 :: rest) ds =
      .ok (d1.withTail none :: d2.withTail none ::
          mergeSpecList rest
            (removeFirstTagged c2.tag (removeFirstTagged c1.tag ds)),
        mergeSpecRem rest
          (removeFirstTagged c2.tag (removeFirstTagged c1.tag ds))) := by
  rw [mergeLoop_eq_spec _ _ h]
  simp only [mergeSpecList, mergeSpecRem, h1, h2]

/-- Witness for C9 (amended) at the concrete consecutive driver and
source children. -/
theorem mergeLoop_considers_following_child_witness :
    ((fragConsecutive.children.map Xml.tag).Nodup) ∧
    mergeLoop diskConsecutive.children fragConsecutive.children =
      .ok ([ Xml.elem "driver" [("name", "qemu")] none none []
           , Xml.elem "source" [("file", "/dst/b")] none none []
           , Xml.elem "serial" [] (some "S1") none [] ], []) := by
  refine ⟨by decide, ?_⟩
  have := mergeLoop_considers_following_child
    (Xml.elem "driver" [("name", "raw")] none none [])
    (Xml.elem "source" [("file", "/src/a")] none none [])
    [Xml.elem "serial" [] (some "S1") none []]
    fragConsecutive.children
    (Xml.elem "driver" [("name", "qemu")] none none [])
    (Xml.elem "source" [("file", "/dst/b")] none none [])
    (by decide) rfl rfl
  exact this

/-! ## Basic facts about the element operations -/

theorem Xml.tag_withChildren (n : Xml) (cs : List Xml) :
    (n.withChildren cs).tag = n.tag := by
  cases n; rfl

theorem Xml.children_withChildren (n : Xml) (cs : List Xml) :
    (n.withChildren cs).children = cs := by
  cases n; rfl

theorem Xml.withChildren_self (n : Xml) : n.withChildren n.children = n := by
  cases n; rfl

theorem Xml.withChildren_withChildren (n : Xml) (cs cs2 : List Xml) :
    (n.withChildren cs).withChildren cs2 = n.withChildren cs2 := by
  cases n; rfl

theorem Xml.getAttr_withChildren (n : Xml) (cs : List Xml) (k : String) :
    (n.withChildren cs).getAttr k = n.getAttr k := by
  cases n; rfl

theorem Xml.tag_withTail (n : Xml) (tl : Option String) :
    (n.withTail tl).tag = n.tag := by
  cases n; rfl

theorem Xml.text_withTail (n : Xml) (tl : Option String) :
    (n.withTail tl).text = n.text := by
  cases n; rfl

theorem Xml.tag_setAttr (n : Xml) (k v : String) :
    (n.setAttr k v).tag = n.tag := by
  cases n; rfl

theorem Xml.children_setAttr (n : Xml) (k v : String) :
    (n.setAttr k v).children = n.children := by
  cases n; rfl

theorem setPairs_idem (k v : String) (a : List (String × String)) :
    setPairs k v (setPairs k v a) = setPairs k v a := by
  induction a with
  | nil => simp [setPairs]
  | cons p rest ih =>
      by_cases h : p.1 = k
      · simp [setPairs, h]
      · simp only [setPairs]
        have hb : (p.1 == k) = false := by simp [h]
        rw [hb]
        simp only [Bool.false_eq_true, if_false, setPairs, hb]
        rw [ih]

theorem Xml.setAttr_setAttr_self (n : Xml) (k v : String) :
    (n.setAttr k v).setAttr k v = n.setAttr k v := by
  cases n
  simp [Xml.setAttr, setPairs_idem]

theorem find?_setPairs_self (k v : String) (a : List (String × String)) :
    (setPairs k v a).find? (fun p => p.1 == k) = some (k, v) := by
  induction a with
  | nil => simp [setPairs]
  | cons p rest ih =>
      by_cases h : p.1 = k
      · simp [setPairs, h]
      · have hb : (p.1 == k) = false := by simp [h]
        simp only [setPairs, hb, Bool.false_eq_true, if_false, List.find?_cons]
        exact ih

theorem find?_setPairs_ne (k k2 v : String) (h : k2 ≠ k)
    (a : List (String × String)) :
    (setPairs k v a).find? (fun p => p.1 == k2) =
      a.find? (fun p => p.1 == k2) := by
  induction a with
  | nil =>
      have hkk : ¬ k = k2 := fun hc => h (Eq.symm hc)
      have : (k == k2) = false := by simp [hkk]
      simp [setPairs, this]
  | cons p rest ih =>
      by_cases hp : p.1 = k
      · have hkk : ¬ k = k2 := fun hc => h (Eq.symm hc)
        have : (k == k2) = false := by simp [hkk]
        have hp2 : (p.1 == k2) = false := by
          rw [hp]; simp [hkk]
        simp [setPairs, hp, List.find?_cons, this, hp2]
      · have hb : (p.1 == k) = false := by simp [hp]
        simp only [setPairs, hb, Bool.false_eq_true, if_false, List.find?_cons]
        by_cases hp2 : p.1 = k2
        · simp [hp2]
        · have hb2 : (p.1 == k2) = false := by simp [hp2]
          rw [hb2]
          exact ih

theorem Xml.getAttr_setAttr_self (n : Xml) (k v : String) :
    (n.setAttr k v).getAttr k = some v := by
  cases n
  simp [Xml.getAttr, Xml.setAttr, Xml.attrs, find?_setPairs_self]

theorem Xml.getAttr_setAttr_ne (n : Xml) (k k2 v : String) (h : k2 ≠ k) :
    (n.setAttr k v).getAttr k2 = n.getAttr k2 := by
  cases n
  simp [Xml.getAttr, Xml.setAttr, Xml.attrs, find?_setPairs_ne k k2 v h]

theorem find?_updateFirstTagged (t : String) (x : Xml) (cs : List Xml)
    (hx : x.tag = t) :
    (updateFirstTagged t x cs).find? (fun c => c.tag == t) =
      match cs.find? (fun c => c.tag == t) with
      | some _ => some x
      | none => none := by
  induction cs with
  | nil => simp [updateFirstTagged]
  | cons c rest ih =>
      by_cases h : c.tag = t
      · simp [updateFirstTagged, h, List.find?_cons, hx]
      · have hb : (c.tag == t) = false := by simp [h]
        simp only [updateFirstTagged, hb, Bool.false_eq_true, if_false,
          List.find?_cons]
        exact ih

theorem updateFirstTagged_idem (t : String) (x y : Xml) (cs : List Xml)
    (hy : y.tag = t) :
    updateFirstTagged t x (updateFirstTagged t y cs) =
      updateFirstTagged t x cs := by
  induction cs with
  | nil => simp [updateFirstTagged]
  | cons c rest ih =>
      by_cases h : c.tag = t
      · simp [updateFirstTagged, h, hy]
      · have hb : (c.tag == t) = false := by simp [h]
        simp only [updateFirstTagged, hb, Bool.false_eq_true, if_false]
        rw [ih]

/-! ## The mapFiltered and patchDoc framework -/

theorem mapFiltered_cons_ok (p : Xml → Bool) (f : Xml → Except String Xml)
    (c : Xml) (rest l : List Xml)
    (hok : mapFiltered p f (c :: rest) = .ok l) :
    ∃ c2 rest2, (if p c then f c else .ok c) = .ok c2 ∧
      mapFiltered p f rest = .ok rest2 ∧ l = c2 :: rest2 := by
  simp only [mapFiltered] at hok
  cases hA : (if p c then f c else .ok c) with
  | error e => rw [hA] at hok; cases hok
  | ok c2 =>
      rw [hA] at hok
      cases hR : mapFiltered p f rest with
      | error e => rw [hR] at hok; cases hok
      | ok rest2 =>
          rw [hR] at hok
          injection hok with hl
          exact ⟨c2, rest2, rfl, rfl, hl.symm⟩

theorem mapFiltered_fix_iff (p : Xml → Bool) (f : Xml → Except String Xml)
    (cs : List Xml) :
    mapFiltered p f cs = .ok cs ↔
      ∀ c ∈ cs, p c = true → f c = .ok c := by
  induction cs with
  | nil => simp [mapFiltered]
  | cons c rest ih =>
      constructor
      · intro hok
        obtain ⟨c2, rest2, hA, hR, hl⟩ := mapFiltered_cons_ok p f c rest _ hok
        injection hl with hc hrest
        subst hc; subst hrest
        intro x hx hpx
        rcases List.mem_cons.mp hx with rfl | hx
        · rw [if_pos hpx] at hA
          exact hA
        · exact (ih.mp hR) x hx hpx
      · intro h
        simp only [mapFiltered]
        have hhead : (if p c then f c else .ok c) = .ok c := by
          by_cases hp : p c
          · rw [if_pos hp]; exact h c (List.mem_cons_self c rest) hp
          · rw [if_neg hp]
        rw [hhead, ih.mpr (fun x hx hpx => h x (List.mem_cons_of_mem c hx) hpx)]

theorem mapFiltered_mem_rel (p : Xml → Bool) (f : Xml → Except String Xml)
    (cs cs2 : List Xml) (hok : mapFiltered p f cs = .ok cs2) :
    ∀ c2 ∈ cs2, ∃ c ∈ cs,
      (p c = true ∧ f c = .ok c2) ∨ (p c = false ∧ c2 = c) := by
  induction cs generalizing cs2 with
  | nil =>
      cases hok
      intro c2 hc2
      cases hc2
  | cons c rest ih =>
      obtain ⟨c2, rest2, hA, hR, rfl⟩ := mapFiltered_cons_ok p f c rest _ hok
      intro x hx
      rcases List.mem_cons.mp hx with rfl | hx
      · refine ⟨c, List.mem_cons_self c rest, ?_⟩
        by_cases hp : p c
        · rw [if_pos hp] at hA
          exact Or.inl ⟨hp, hA⟩
        · rw [if_neg hp] at hA
          injection hA with hA
          exact Or.inr ⟨Bool.of_not_eq_true hp, hA.symm⟩
      · obtain ⟨y, hy, hcase⟩ := ih rest2 hR x hx
        exact ⟨y, List.mem_cons_of_mem c hy, hcase⟩

theorem mapFiltered_idem (p : Xml → Bool) (f : Xml → Except String Xml)
    (hf : ∀ c c2, p c = true → f c = .ok c2 → p c2 = true ∧ f c2 = .ok c2)
    (cs cs2 : List Xml) (hok : mapFiltered p f cs = .ok cs2) :
    mapFiltered p f cs2 = .ok cs2 := by
  rw [mapFiltered_fix_iff]
  intro c2 hc2 hp
  obtain ⟨c, _, hcase⟩ := mapFiltered_mem_rel p f cs cs2 hok c2 hc2
  rcases hcase with ⟨hpc, hfc⟩ | ⟨hpc, rfl⟩
  · exact (hf c c2 hpc hfc).2
  · rw [hpc] at hp; cases hp

theorem mapFiltered_preserve (p : Xml → Bool) (f : Xml → Except String Xml)
    (q : Xml → Bool) (g : Xml → Except String Xml)
    (hg : ∀ c c2, q c = true → g c = .ok c2 → p c2 = p c)
    (hpq : ∀ c, q c = true → p c = false)
    (cs cs2 : List Xml)
    (hfix : mapFiltered p f cs = .ok cs)
    (hstep : mapFiltered q g cs = .ok cs2) :
    mapFiltered p f cs2 = .ok cs2 := by
  rw [mapFiltered_fix_iff] at hfix ⊢
  intro c2 hc2 hp
  obtain ⟨c, hc, hcase⟩ := mapFiltered_mem_rel q g cs cs2 hstep c2 hc2
  rcases hcase with ⟨hqc, hgc⟩ | ⟨hqc, rfl⟩
  · rw [hg c c2 hqc hgc, hpq c hqc] at hp
    cases hp
  · exact hfix c2 hc hp

theorem overChildren_ok (f : List Xml → Except String (List Xml)) (n m : Xml)
    (h : overChildren f n = .ok m) :
    ∃ cs, f n.children = .ok cs ∧ m = n.withChildren cs := by
  unfold overChildren at h
  cases hf : f n.children with
  | error e => rw [hf] at h; cases h
  | ok cs =>
      rw [hf] at h
      injection h with h
      exact ⟨cs, rfl, h.symm⟩

theorem overChildren_fix_iff (f : List Xml → Except String (List Xml))
    (n : Xml) :
    overChildren f n = .ok n ↔ f n.children = .ok n.children := by
  constructor
  · intro h
    obtain ⟨cs, hf, hn⟩ := overChildren_ok f n n h
    have : n.children = cs := by
      conv_lhs => rw [hn]
      exact Xml.children_withChildren n cs
    rw [← this] at hf
    exact hf
  · intro h
    unfold overChildren
    rw [h]
    simp [Xml.withChildren_self]

theorem patchDoc_fix_iff (p : Xml → Bool) (f : Xml → Except String Xml)
    (doc : Xml) :
    patchDoc p f doc = .ok doc ↔
      ∀ dv ∈ doc.children, dv.tag = "devices" →
        ∀ c ∈ dv.children, p c = true → f c = .ok c := by
  unfold patchDoc
  rw [overChildren_fix_iff, mapFiltered_fix_iff]
  constructor
  · intro h dv hdv htag c hc hp
    have := h dv hdv (by simp [htag])
    rw [overChildren_fix_iff, mapFiltered_fix_iff] at this
    exact this c hc hp
  · intro h dv hdv htag
    rw [overChildren_fix_iff, mapFiltered_fix_iff]
    intro c hc hp
    exact h dv hdv (by simpa using htag) c hc hp

theorem patchDoc_idem (p : Xml → Bool) (f : Xml → Except String Xml)
    (hf : ∀ c c2, p c = true → f c = .ok c2 → p c2 = true ∧ f c2 = .ok c2)
    (doc doc2 : Xml) (h : patchDoc p f doc = .ok doc2) :
    patchDoc p f doc2 = .ok doc2 := by
  unfold patchDoc at h ⊢
  obtain ⟨cs2, hM, rfl⟩ := overChildren_ok _ _ _ h
  rw [overChildren_fix_iff, Xml.children_withChildren]
  refine mapFiltered_idem _ _ ?_ _ _ hM
  intro dv dv2 hQ hG
  obtain ⟨cs3, hMF, rfl⟩ := overChildren_ok _ _ _ hG
  constructor
  · simpa [Xml.tag_withChildren] using hQ
  · rw [overChildren_fix_iff, Xml.children_withChildren]
    exact mapFiltered_idem _ _ hf _ _ hMF

theorem patchDoc_preserve (p : Xml → Bool) (f : Xml → Except String Xml)
    (q : Xml → Bool) (g : Xml → Except String Xml)
    (hg : ∀ c c2, q c = true → g c = .ok c2 → p c2 = p c)
    (hpq : ∀ c, q c = true → p c = false)
    (X Y : Xml)
    (hfix : patchDoc p f X = .ok X)
    (hstep : patchDoc q g X = .ok Y) :
    patchDoc p f Y = .ok Y := by
  rw [patchDoc_fix_iff] at hfix ⊢
  unfold patchDoc at hstep
  obtain ⟨cs2, hM, rfl⟩ := overChildren_ok _ _ _ hstep
  intro dv2 hdv2 htag2 c2 hc2 hp2
  rw [Xml.children_withChildren] at hdv2
  obtain ⟨dv, hdv, hcase⟩ := mapFiltered_mem_rel _ _ _ _ hM dv2 hdv2
  rcases hcase with ⟨hQ, hG⟩ | ⟨hQ, rfl⟩
  · obtain ⟨cs3, hMF, rfl⟩ := overChildren_ok _ _ _ hG
    rw [Xml.children_withChildren] at hc2
    have hinner : ∀ c ∈ dv.children, p c = true → f c = .ok c :=
      hfix dv hdv (by simpa using hQ)
    obtain ⟨c, hc, hcase2⟩ := mapFiltered_mem_rel _ _ _ _ hMF c2 hc2
    rcases hcase2 with ⟨hqc, hgc⟩ | ⟨hqc, rfl⟩
    · rw [hg c c2 hqc hgc, hpq c hqc] at hp2
      cases hp2
    · exact hinner c2 hc hp2
  · rw [htag2] at hQ
    simp at hQ

/-! ## Second-run identity of the per-node patch bodies -/

theorem overChildren_tag_attrs (f : List Xml → Except String (List Xml))
    (n m : Xml) (h : overChildren f n = .ok m) :
    m.tag = n.tag ∧ ∀ k, m.getAttr k = n.getAttr k := by
  obtain ⟨cs, _, rfl⟩ := overChildren_ok f n m h
  exact ⟨Xml.tag_withChildren n cs, fun k => Xml.getAttr_withChildren n cs k⟩

theorem update_volume_disk_preserves (bdms : List Bdm)
    (gvc : String → String → Xml) (c c2 : Xml)
    (h : update_volume_disk bdms gvc c = .ok c2) :
    c2.tag = c.tag ∧ ∀ k, c2.getAttr k = c.getAttr k := by
  unfold update_volume_disk at h
  dsimp only at h
  repeat' split at h
  all_goals try (injection h with h; subst h)
  all_goals first
    | cases h
    | exact ⟨rfl, fun k => rfl⟩
    | exact ⟨Xml.tag_withChildren .., fun k => Xml.getAttr_withChildren ..⟩

theorem update_source_host_idem (la : Option String) (src src2 : Xml)
    (h : update_source_host la src = .ok src2) :
    src2.tag = src.tag ∧ update_source_host la src2 = .ok src2 := by
  unfold update_source_host at h
  cases hattr : src.getAttr "host" with
  | none =>
      rw [hattr] at h
      injection h with h
      subst h
      exact ⟨rfl, by unfold update_source_host; rw [hattr]⟩
  | some hv =>
      rw [hattr] at h
      cases la with
      | none => cases h
      | some a =>
          simp only [Xml.setAttrOpt] at h
          injection h with h
          subst h
          refine ⟨Xml.tag_setAttr src "host" a, ?_⟩
          unfold update_source_host
          rw [Xml.getAttr_setAttr_self]
          simp [Xml.setAttrOpt, Xml.setAttr_setAttr_self]

theorem update_graphics_node_idem
    (addrs : Option (Option String × Option String)) (dev dev2 : Xml)
    (h : update_graphics_node addrs dev = .ok dev2) :
    dev2.tag = dev.tag ∧ update_graphics_node addrs dev2 = .ok dev2 := by
  simp only [update_graphics_node] at h
  by_cases hcond : (dev.getAttr "type" == some "vnc"
      || dev.getAttr "type" == some "spice") = true
  case neg =>
    rw [if_neg hcond] at h
    injection h with h
    subst h
    refine ⟨rfl, ?_⟩
    simp only [update_graphics_node]
    rw [if_neg hcond]
  case pos =>
    rw [if_pos hcond] at h
    cases hfind : dev.children.find? (fun c => c.tag == "listen") with
    | some lt =>
        have hlt : lt.tag = "listen" := by
          simpa using List.find?_some hfind
        simp only [hfind] at h
        cases haddr : lookupAddr addrs ((dev.getAttr "type").getD "") with
        | error e => simp only [haddr] at h; cases h
        | ok addr =>
            simp only [haddr] at h
            cases addr with
            | none => simp only [Xml.setAttrOpt] at h; cases h
            | some a =>
                simp only [Xml.setAttrOpt] at h
                have hlt2 : (lt.setAttr "address" a).tag = "listen" := by
                  rw [Xml.tag_setAttr, hlt]
                cases hattr : dev.getAttr "listen" with
                | none =>
                    simp only [Xml.getAttr_withChildren, hattr] at h
                    injection h with h
                    subst h
                    refine ⟨Xml.tag_withChildren .., ?_⟩
                    have htyp : (dev.withChildren (updateFirstTagged "listen"
                        (lt.setAttr "address" a) dev.children)).getAttr "type"
                        = dev.getAttr "type" := Xml.getAttr_withChildren ..
                    have hch : (dev.withChildren (updateFirstTagged "listen"
                        (lt.setAttr "address" a) dev.children)).children
                        = updateFirstTagged "listen" (lt.setAttr "address" a)
                            dev.children := Xml.children_withChildren ..
                    simp only [update_graphics_node, htyp, hcond, if_pos, hch,
                      find?_updateFirstTagged "listen" (lt.setAttr "address" a)
                        dev.children hlt2, hfind, haddr, Xml.setAttrOpt,
                      Xml.setAttr_setAttr_self,
                      updateFirstTagged_idem "listen" (lt.setAttr "address" a)
                        (lt.setAttr "address" a) dev.children hlt2,
                      Xml.withChildren_withChildren,
                      Xml.getAttr_withChildren, hattr]
                | some lv =>
                    simp only [Xml.getAttr_withChildren, hattr, haddr,
                      Xml.setAttrOpt] at h
                    injection h with h
                    subst h
                    constructor
                    · rw [Xml.tag_setAttr, Xml.tag_withChildren]
                    · have htyp : ((dev.withChildren (updateFirstTagged "listen"
                          (lt.setAttr "address" a) dev.children)).setAttr
                            "listen" a).getAttr "type"
                          = dev.getAttr "type" := by
                        rw [Xml.getAttr_setAttr_ne _ _ _ _ (by decide),
                          Xml.getAttr_withChildren]
                      have hch : ((dev.withChildren (updateFirstTagged "listen"
                          (lt.setAttr "address" a) dev.children)).setAttr
                            "listen" a).children
                          = updateFirstTagged "listen" (lt.setAttr "address" a)
                              dev.children := by
                        rw [Xml.children_setAttr, Xml.children_withChildren]
                      have hmain : ((dev.withChildren (updateFirstTagged
                          "listen" (lt.setAttr "address" a)
                          dev.children)).setAttr "listen" a).withChildren
                            (updateFirstTagged "listen" (lt.setAttr "address" a)
                              dev.children)
                          = ((dev.withChildren (updateFirstTagged "listen"
                              (lt.setAttr "address" a) dev.children)).setAttr
                                "listen" a) := by
                        cases dev; rfl
                      simp only [update_graphics_node, htyp, hcond, if_pos,
                        hch, find?_updateFirstTagged "listen"
                          (lt.setAttr "address" a) dev.children hlt2, hfind,
                        haddr, Xml.setAttrOpt, Xml.setAttr_setAttr_self,
                        updateFirstTagged_idem "listen" (lt.setAttr "address" a)
                          (lt.setAttr "address" a) dev.children hlt2, hmain,
                        Xml.getAttr_setAttr_self]
    | none =>
        simp only [hfind] at h
        cases hattr : dev.getAttr "listen" with
        | none =>
            simp only [hattr] at h
            injection h with h
            subst h
            refine ⟨rfl, ?_⟩
            simp only [update_graphics_node, hcond, if_pos, hfind, hattr]
        | some lv =>
            simp only [hattr] at h
            cases haddr : lookupAddr addrs ((dev.getAttr "type").getD "") with
            | error e => simp only [haddr] at h; cases h
            | ok addr =>
                simp only [haddr] at h
                cases addr with
                | none => simp only [Xml.setAttrOpt] at h; cases h
                | some a =>
                    simp only [Xml.setAttrOpt] at h
                    injection h with h
                    subst h
                    refine ⟨Xml.tag_setAttr .., ?_⟩
                    have htyp : (dev.setAttr "listen" a).getAttr "type"
                        = dev.getAttr "type" :=
                      Xml.getAttr_setAttr_ne _ _ _ _ (by decide)
                    have hch : (dev.setAttr "listen" a).children
                        = dev.children := Xml.children_setAttr ..
                    simp only [update_graphics_node, htyp, hcond, if_pos, hch,
                      hfind, haddr, Xml.setAttrOpt, Xml.getAttr_setAttr_self,
                      Xml.setAttr_setAttr_self]

/-! ## Further facts about the merge description -/

theorem mergeSpecList_length (cs ds : List Xml) :
    (mergeSpecList cs ds).length = cs.length := by
  induction cs generalizing ds with
  | nil => rfl
  | cons c rest ih =>
      simp only [mergeSpecList]
      cases hd : ds.find? (fun d => d.tag == c.tag) with
      | some d => simp [ih]
      | none => simp [ih]

theorem find?_removeFirstTagged_ne (t t2 : String) (hne : t ≠ t2)
    (ds : List Xml) :
    (removeFirstTagged t2 ds).find? (fun x => x.tag == t) =
      ds.find? (fun x => x.tag == t) := by
  induction ds with
  | nil => rfl
  | cons d rest ih =>
      by_cases hd : d.tag = t2
      · have h1 : (d.tag == t2) = true := by simp [hd]
        have h2 : (d.tag == t) = false := by simp [hd, Ne.symm hne]
        simp [removeFirstTagged, h1, List.find?_cons, h2]
      · have h1 : (d.tag == t2) = false := by simp [hd]
        simp only [removeFirstTagged, h1, Bool.false_eq_true, if_false,
          List.find?_cons]
        cases h2 : (d.tag == t) with
        | true => rfl
        | false => exact ih

theorem mergeSpecList_find? (cs ds : List Xml) (t : String) :
    (mergeSpecList cs ds).find? (fun x => x.tag == t) =
      match cs.find? (fun x => x.tag == t),
            ds.find? (fun d => d.tag == t) with
      | none, _ => none
      | some c, none => some c
      | some _, some d => some (d.withTail none) := by
  induction cs generalizing ds with
  | nil => simp [mergeSpecList]
  | cons c rest ih =>
      cases hd : ds.find? (fun d => d.tag == c.tag) with
      | some d =>
          have hdt : d.tag = c.tag := by simpa using List.find?_some hd
          by_cases ht : c.tag = t
          · subst ht
            have h1 : ((d.withTail none).tag == c.tag) = true := by
              simp [Xml.tag_withTail, hdt]
            simp [mergeSpecList, hd, List.find?_cons, h1]
          · have h1 : ((d.withTail none).tag == t) = false := by
              simp [Xml.tag_withTail, hdt, ht]
            have h2 : (c.tag == t) = false := by simp [ht]
            simp only [mergeSpecList, hd, List.find?_cons, h1, h2]
            rw [ih (removeFirstTagged c.tag ds),
              find?_removeFirstTagged_ne t c.tag (fun hc => ht hc.symm) ds]
      | none =>
          by_cases ht : c.tag = t
          · subst ht
            have h2 : (c.tag == c.tag) = true := by simp
            simp [mergeSpecList, hd, List.find?_cons, h2]
          · have h2 : (c.tag == t) = false := by simp [ht]
            simp only [mergeSpecList, hd, List.find?_cons, h2]
            exact ih ds

theorem mem_removeFirstTagged_of_ne_tag (t : String) (x : Xml)
    (ds : List Xml) (hx : x ∈ ds) (hne : x.tag ≠ t) :
    x ∈ removeFirstTagged t ds := by
  induction ds with
  | nil => cases hx
  | cons d rest ih =>
      rcases List.mem_cons.mp hx with rfl | hx
      · have h1 : (x.tag == t) = false := by simp [hne]
        simp [removeFirstTagged, h1]
      · by_cases hd : d.tag = t
        · have h1 : (d.tag == t) = true := by simp [hd]
          simp only [removeFirstTagged, h1, if_true]
          exact hx
        · have h1 : (d.tag == t) = false := by simp [hd]
          simp only [removeFirstTagged, h1, Bool.false_eq_true, if_false]
          exact List.mem_cons_of_mem d (ih hx)

theorem mergeSpecRem_mem_src (cs ds : List Xml) (x : Xml)
    (hx : x ∈ mergeSpecRem cs ds) : x ∈ ds := by
  induction cs generalizing ds with
  | nil => exact hx
  | cons c rest ih =>
      simp only [mergeSpecRem] at hx
      cases hd : ds.find? (fun d => d.tag == c.tag) with
      | some d =>
          rw [hd] at hx
          exact (removeFirstTagged_sublist c.tag ds).mem (ih _ hx)
      | none =>
          rw [hd] at hx
          exact ih _ hx

theorem tag_ne_of_mem_removeFirstTagged (t : String) (ds : List Xml)
    (h : (ds.map Xml.tag).Nodup) (x : Xml)
    (hx : x ∈ removeFirstTagged t ds) : x.tag ≠ t := by
  induction ds with
  | nil => cases hx
  | cons d rest ih =>
      rw [List.map_cons, List.nodup_cons] at h
      by_cases hd : d.tag = t
      · have h1 : (d.tag == t) = true := by simp [hd]
        rw [removeFirstTagged, h1] at hx
        simp only [if_true] at hx
        intro hxt
        exact h.1 (by rw [hd, ← hxt]; exact List.mem_map_of_mem Xml.tag hx)
      · have h1 : (d.tag == t) = false := by simp [hd]
        rw [removeFirstTagged, h1] at hx
        simp only [Bool.false_eq_true, if_false] at hx
        rcases List.mem_cons.mp hx with rfl | hx
        · exact hd
        · exact ih h.2 hx

theorem mergeSpecRem_find?_none (cs ds : List Xml)
    (h : (ds.map Xml.tag).Nodup) (x : Xml) (hx : x ∈ mergeSpecRem cs ds) :
    cs.find? (fun c => c.tag == x.tag) = none := by
  induction cs generalizing ds with
  | nil => rfl
  | cons c rest ih =>
      simp only [mergeSpecRem] at hx
      cases hd : ds.find? (fun d => d.tag == c.tag) with
      | some d =>
          rw [hd] at hx
          have hxs : x ∈ removeFirstTagged c.tag ds :=
            mergeSpecRem_mem_src rest _ x hx
          have hne : x.tag ≠ c.tag :=
            tag_ne_of_mem_removeFirstTagged c.tag ds h x hxs
          have h1 : (c.tag == x.tag) = false := by
            have hne2 : ¬ c.tag = x.tag := fun hc => hne (Eq.symm hc)
            simp [hne2]
          rw [List.find?_cons, h1]
          exact ih (removeFirstTagged c.tag ds)
            (nodup_removeFirstTagged c.tag ds h) hx
      | none =>
          rw [hd] at hx
          have hxs : x ∈ ds := mergeSpecRem_mem_src rest ds x hx
          have hne : c.tag ≠ x.tag := by
            intro hc
            have := List.find?_eq_none.mp hd x hxs
            simp [hc] at this
          have h1 : (c.tag == x.tag) = false := by simp [hne]
          rw [List.find?_cons, h1]
          exact ih ds h hx

theorem mergeSpecRem_mem_of (cs ds : List Xml) (d : Xml) (hd : d ∈ ds)
    (hnone : cs.find? (fun c => c.tag == d.tag) = none) :
    d ∈ mergeSpecRem cs ds := by
  induction cs generalizing ds with
  | nil => exact hd
  | cons c rest ih =>
      rw [List.find?_cons] at hnone
      cases h1 : (c.tag == d.tag) with
      | true => rw [h1] at hnone; cases hnone
      | false =>
          rw [h1] at hnone
          have hne : d.tag ≠ c.tag := by
            intro hc
            simp [hc] at h1
          simp only [mergeSpecRem]
          cases h2 : ds.find? (fun x => x.tag == c.tag) with
          | some y =>
              exact ih (removeFirstTagged c.tag ds)
                (mem_removeFirstTagged_of_ne_tag c.tag d ds hd hne) hnone
          | none => exact ih ds hd hnone

theorem find?_eq_some_of_unique (l : List Xml) (p : Xml → Bool) (x : Xml)
    (hx : x ∈ l) (hp : p x = true)
    (huniq : ∀ y ∈ l, p y = true → y = x) :
    l.find? p = some x := by
  induction l with
  | nil => cases hx
  | cons c rest ih =>
      rw [List.find?_cons]
      rcases List.mem_cons.mp hx with rfl | hx
      · rw [hp]
      · cases hc : p c with
        | true =>
            have hcx : c = x := huniq c (List.mem_cons_self c rest) hc
            simp [hcx]
        | false =>
            exact ih hx (fun y hy hpy =>
              huniq y (List.mem_cons_of_mem c hy) hpy)

theorem nodup_tag_inj (ds : List Xml) (h : (ds.map Xml.tag).Nodup)
    (x y : Xml) (hx : x ∈ ds) (hy : y ∈ ds) (ht : x.tag = y.tag) : x = y :=
  List.inj_on_of_nodup_map h hx hy ht

theorem mergeSpecList_stable (cs ds : List Xml)
    (h : (ds.map Xml.tag).Nodup)
    (hpt : ∀ d ∈ ds, ∀ c, cs.find? (fun x => x.tag == d.tag) = some c →
        c = d.withTail none) :
    mergeSpecList cs ds = cs := by
  induction cs generalizing ds with
  | nil => rfl
  | cons c rest ih =>
      cases hd : ds.find? (fun d => d.tag == c.tag) with
      | some d =>
          simp only [mergeSpecList, hd]
          have hdmem : d ∈ ds := List.mem_of_find?_eq_some hd
          have hdt : d.tag = c.tag := by simpa using List.find?_some hd
          have hhead : c = d.withTail none := by
            refine hpt d hdmem c ?_
            rw [List.find?_cons]
            have : (c.tag == d.tag) = true := by simp [hdt]
            rw [this]
          rw [← hhead]
          have hrest : mergeSpecList rest (removeFirstTagged c.tag ds)
              = rest := by
            refine ih (removeFirstTagged c.tag ds)
              (nodup_removeFirstTagged c.tag ds h) ?_
            intro d2 hd2 c2 hc2
            have hd2mem : d2 ∈ ds :=
              (removeFirstTagged_sublist c.tag ds).mem hd2
            have hd2ne : d2.tag ≠ c.tag :=
              tag_ne_of_mem_removeFirstTagged c.tag ds h d2 hd2
            refine hpt d2 hd2mem c2 ?_
            rw [List.find?_cons]
            have hne2 : ¬ c.tag = d2.tag := fun hc => hd2ne (Eq.symm hc)
            have : (c.tag == d2.tag) = false := by simp [hne2]
            rw [this]
            exact hc2
          rw [hrest]
      | none =>
          simp only [mergeSpecList, hd]
          have hrest : mergeSpecList rest ds = rest := by
            refine ih ds h ?_
            intro d2 hd2 c2 hc2
            have hd2ne : c.tag ≠ d2.tag := by
              intro hc
              have := List.find?_eq_none.mp hd d2 hd2
              simp [hc] at this
            refine hpt d2 hd2 c2 ?_
            rw [List.find?_cons]
            have : (c.tag == d2.tag) = false := by simp [hd2ne]
            rw [this]
            exact hc2
          rw [hrest]

theorem mergeSpecRem_eq_nil (cs ds : List Xml)
    (h : (ds.map Xml.tag).Nodup)
    (hsome : ∀ d ∈ ds,
        (cs.find? (fun c => c.tag == d.tag)).isSome = true) :
    mergeSpecRem cs ds = [] := by
  induction cs generalizing ds with
  | nil =>
      cases hds : ds with
      | nil => rfl
      | cons d rest =>
          have := hsome d (by rw [hds]; exact List.mem_cons_self d rest)
          simp [List.find?] at this
  | cons c rest ih =>
      simp only [mergeSpecRem]
      cases hd : ds.find? (fun d => d.tag == c.tag) with
      | some d =>
          refine ih (removeFirstTagged c.tag ds)
            (nodup_removeFirstTagged c.tag ds h) ?_
          intro d2 hd2
          have hd2mem : d2 ∈ ds :=
            (removeFirstTagged_sublist c.tag ds).mem hd2
          have hd2ne : d2.tag ≠ c.tag :=
            tag_ne_of_mem_removeFirstTagged c.tag ds h d2 hd2
          have := hsome d2 hd2mem
          rw [List.find?_cons] at this
          have hfalse : (c.tag == d2.tag) = false := by
            have hne2 : ¬ c.tag = d2.tag := fun hc => hd2ne (Eq.symm hc)
            simp [hne2]
          rw [hfalse] at this
          exact this
      | none =>
          refine ih ds h ?_
          intro d2 hd2
          have hd2ne : c.tag ≠ d2.tag := by
            intro hc
            have := List.find?_eq_none.mp hd d2 hd2
            simp [hc] at this
          have := hsome d2 hd2
          rw [List.find?_cons] at this
          have hfalse : (c.tag == d2.tag) = false := by simp [hd2ne]
          rw [hfalse] at this
          exact this

/-! ## The merged children of a disk absorb the whole fragment -/

theorem insertExtras_find? (cs ds : List Xml)
    (h : (ds.map Xml.tag).Nodup) (d : Xml) (hd : d ∈ ds) :
    (insertExtras (mergeSpecList cs ds) (mergeSpecRem cs ds)).find?
        (fun x => x.tag == d.tag) = some (d.withTail none) := by
  have hfd : ds.find? (fun x => x.tag == d.tag) = some d := by
    refine find?_eq_some_of_unique ds _ d hd (by simp) ?_
    intro y hy hpy
    exact nodup_tag_inj ds h y d hy hd (by simpa using hpy)
  have hL := mergeSpecList_find? cs ds d.tag
  rw [hfd] at hL
  unfold insertExtras
  rw [List.find?_append, List.find?_append]
  cases hcs : cs.find? (fun x => x.tag == d.tag) with
  | some c0 =>
      rw [hcs] at hL
      have hBnone : ((mergeSpecRem cs ds).map
          (fun x => x.withTail none)).reverse.find?
            (fun x => x.tag == d.tag) = none := by
        rw [List.find?_eq_none]
        intro x hx
        rw [List.mem_reverse, List.mem_map] at hx
        obtain ⟨r, hr, rfl⟩ := hx
        have hrn := mergeSpecRem_find?_none cs ds h r hr
        intro hcontra
        rw [Xml.tag_withTail] at hcontra
        have hrd : r.tag = d.tag := by simpa using hcontra
        rw [← hrd] at hcs
        rw [hrn] at hcs
        cases hcs
      rw [hBnone]
      have hAC : Option.or
          (((mergeSpecList cs ds).take
            ((mergeSpecList cs ds).length - 1)).find?
              (fun x => x.tag == d.tag))
          (((mergeSpecList cs ds).drop
            ((mergeSpecList cs ds).length - 1)).find?
              (fun x => x.tag == d.tag)) = some (d.withTail none) := by
        rw [← List.find?_append, List.take_append_drop]
        exact hL
      rw [Option.or_none]
      exact hAC
  | none =>
      rw [hcs] at hL
      have hLnone : ((mergeSpecList cs ds).take
            ((mergeSpecList cs ds).length - 1)).find?
              (fun x => x.tag == d.tag) = none := by
        rw [List.find?_eq_none]
        intro x hx
        have hxm : x ∈ mergeSpecList cs ds := List.mem_of_mem_take hx
        intro hcontra
        have := List.find?_eq_none.mp hL x hxm
        exact this hcontra
      have hB : ((mergeSpecRem cs ds).map
          (fun x => x.withTail none)).reverse.find?
            (fun x => x.tag == d.tag) = some (d.withTail none) := by
        have hdR : d ∈ mergeSpecRem cs ds :=
          mergeSpecRem_mem_of cs ds d hd hcs
        refine find?_eq_some_of_unique _ _ (d.withTail none) ?_
          (by simp [Xml.tag_withTail]) ?_
        · rw [List.mem_reverse, List.mem_map]
          exact ⟨d, hdR, rfl⟩
        · intro y hy hpy
          rw [List.mem_reverse, List.mem_map] at hy
          obtain ⟨r, hr, rfl⟩ := hy
          rw [Xml.tag_withTail] at hpy
          have hrd : r.tag = d.tag := by simpa using hpy
          have : r = d := nodup_tag_inj ds h r d
            (mergeSpecRem_mem_src cs ds r hr) hd hrd
          rw [this]
      rw [hLnone, hB]
      rfl

/-- Re-running the volume merge on one disk changes nothing more, provided
every fragment the provider returns has pairwise distinct child tags. -/
theorem update_volume_disk_idem (bdms : List Bdm)
    (gvc : String → String → Xml)
    (huniq : ∀ ci di, ((gvc ci di).children.map Xml.tag).Nodup)
    (disk disk2 : Xml)
    (h : update_volume_disk bdms gvc disk = .ok disk2) :
    disk2.tag = disk.tag ∧ update_volume_disk bdms gvc disk2 = .ok disk2 := by
  unfold update_volume_disk at h
  cases hft : disk.findtext "serial" with
  | none =>
      simp only [hft] at h
      injection h with h
      subst h
      exact ⟨rfl, by simp only [update_volume_disk, hft]⟩
  | some s =>
      simp only [hft] at h
      cases hbdm : bdm_by_serial bdms s with
      | none =>
          simp only [hbdm] at h
          injection h with h
          subst h
          exact ⟨rfl, by simp only [update_volume_disk, hft, hbdm]⟩
      | some b =>
          simp only [hbdm] at h
          cases hci : b.connection_info with
          | none =>
              simp only [hci] at h
              injection h with h
              subst h
              exact ⟨rfl, by simp only [update_volume_disk, hft, hbdm, hci]⟩
          | some ci =>
              simp only [hci] at h
              by_cases hcondb : (match (gvc ci b.disk_info).findtext "serial"
                  with
                  | some sd => sd != "" && sd == s
                  | none => false) = true
              case neg =>
                  rw [if_neg hcondb] at h
                  injection h with h
                  subst h
                  refine ⟨rfl, ?_⟩
                  simp only [update_volume_disk, hft, hbdm, hci]
                  rw [if_neg hcondb]
              case pos =>
                  rw [if_pos hcondb] at h
                  cases hx : (gvc ci b.disk_info).findtext "serial" with
                  | none => rw [hx] at hcondb; cases hcondb
                  | some sd =>
                      rw [hx] at hcondb
                      simp only [Bool.and_eq_true, bne_iff_ne, ne_eq,
                        beq_iff_eq] at hcondb
                      obtain ⟨hsne, hseq⟩ := hcondb
                      subst hseq
                      have hnd := huniq ci b.disk_info
                      have hmerge := mergeLoop_eq_spec disk.children
                        (gvc ci b.disk_info).children hnd
                      simp only [hmerge] at h
                      have hft2 : (disk.children.find?
                          (fun c => c.tag == "serial")).map
                            (fun c => c.text.getD "") = some sd := hft
                      obtain ⟨cSer, hcf, hcst⟩ := Option.map_eq_some'.mp hft2
                      have hne0 : ((mergeSpecList disk.children
                          (gvc ci b.disk_info).children).length == 0)
                          = false := by
                        rw [mergeSpecList_length]
                        have hnil : disk.children ≠ [] := by
                          intro hnil
                          rw [hnil] at hcf
                          cases hcf
                        simp [List.length_eq_zero, hnil]
                      rw [hne0] at h
                      simp only [Bool.false_eq_true, if_false] at h
                      injection h with h
                      subst h
                      refine ⟨Xml.tag_withChildren .., ?_⟩
                      have hxd : ((gvc ci b.disk_info).children.find?
                          (fun c => c.tag == "serial")).map
                            (fun c => c.text.getD "") = some sd := hx
                      obtain ⟨dSer, hdf, hdst⟩ := Option.map_eq_some'.mp hxd
                      have hdtag : dSer.tag = "serial" := by
                        simpa using List.find?_some hdf
                      have hdmem : dSer ∈ (gvc ci b.disk_info).children :=
                        List.mem_of_find?_eq_some hdf
                      have hK2 : ∀ d ∈ (gvc ci b.disk_info).children,
                          (insertExtras
                            (mergeSpecList disk.children
                              (gvc ci b.disk_info).children)
                            (mergeSpecRem disk.children
                              (gvc ci b.disk_info).children)).find?
                                (fun x => x.tag == d.tag)
                              = some (d.withTail none) :=
                        fun d hd => insertExtras_find? disk.children
                          (gvc ci b.disk_info).children hnd d hd
                      have hserial2 : (insertExtras
                          (mergeSpecList disk.children
                            (gvc ci b.disk_info).children)
                          (mergeSpecRem disk.children
                            (gvc ci b.disk_info).children)).find?
                              (fun c => c.tag == "serial")
                            = some (dSer.withTail none) := by
                        have := hK2 dSer hdmem
                        rw [hdtag] at this
                        exact this
                      have hft3 : (disk.withChildren (insertExtras
                          (mergeSpecList disk.children
                            (gvc ci b.disk_info).children)
                          (mergeSpecRem disk.children
                            (gvc ci b.disk_info).children))).findtext "serial"
                          = some sd := by
                        unfold Xml.findtext
                        rw [Xml.children_withChildren, hserial2]
                        simp [Xml.text_withTail, hdst]
                      have hstable : mergeSpecList (insertExtras
                          (mergeSpecList disk.children
                            (gvc ci b.disk_info).children)
                          (mergeSpecRem disk.children
                            (gvc ci b.disk_info).children))
                          (gvc ci b.disk_info).children
                          = insertExtras
                            (mergeSpecList disk.children
                              (gvc ci b.disk_info).children)
                            (mergeSpecRem disk.children
                              (gvc ci b.disk_info).children) := by
                        refine mergeSpecList_stable _ _ hnd ?_
                        intro d hd c hc
                        rw [hK2 d hd] at hc
                        injection hc with hc
                        exact hc.symm
                      have hrem : mergeSpecRem (insertExtras
                          (mergeSpecList disk.children
                            (gvc ci b.disk_info).children)
                          (mergeSpecRem disk.children
                            (gvc ci b.disk_info).children))
                          (gvc ci b.disk_info).children = [] := by
                        refine mergeSpecRem_eq_nil _ _ hnd ?_
                        intro d hd
                        rw [hK2 d hd]
                        rfl
                      have hmerge2 := mergeLoop_eq_spec (insertExtras
                          (mergeSpecList disk.children
                            (gvc ci b.disk_info).children)
                          (mergeSpecRem disk.children
                            (gvc ci b.disk_info).children))
                          (gvc ci b.disk_info).children hnd
                      rw [hstable, hrem] at hmerge2
                      have hne2 : insertExtras
                          (mergeSpecList disk.children
                            (gvc ci b.disk_info).children)
                          (mergeSpecRem disk.children
                            (gvc ci b.disk_info).children) ≠ [] := by
                        intro hnil
                        rw [hnil] at hserial2
                        cases hserial2
                      have hlen2 : ((insertExtras
                          (mergeSpecList disk.children
                            (gvc ci b.disk_info).children)
                          (mergeSpecRem disk.children
                            (gvc ci b.disk_info).children)).length == 0)
                          = false := by
                        simp [List.length_eq_zero, hne2]
                      have hcond2 : (match (gvc ci b.disk_info).findtext
                          "serial" with
                          | some sd2 => sd2 != "" && sd2 == sd
                          | none => false) = true := by
                        rw [hx]
                        simp [hsne]
                      have hinsnil : insertExtras (insertExtras
                          (mergeSpecList disk.children
                            (gvc ci b.disk_info).children)
                          (mergeSpecRem disk.children
                            (gvc ci b.disk_info).children)) []
                          = insertExtras
                            (mergeSpecList disk.children
                              (gvc ci b.disk_info).children)
                            (mergeSpecRem disk.children
                              (gvc ci b.disk_info).children) := by
                        unfold insertExtras
                        simp [List.take_append_drop]
                      simp only [update_volume_disk, hft3, hbdm, hci, hcond2,
                        if_pos, Xml.children_withChildren, hmerge2, hlen2,
                        Bool.false_eq_true, if_false, hinsnil,
                        Xml.withChildren_withChildren]

/-! ## Assembling idempotence of the whole patch -/

theorem tag_eq_of_tcpTagged (tname : String) (c : Xml)
    (h : tcpTagged tname c = true) : c.tag = tname := by
  unfold tcpTagged at h
  rw [Bool.and_eq_true] at h
  simpa using h.1

theorem graphicsF_idem (addrs : Option (Option String × Option String)) :
    ∀ c c2, (c.tag == "graphics") = true →
      update_graphics_node addrs c = .ok c2 →
      (c2.tag == "graphics") = true ∧
        update_graphics_node addrs c2 = .ok c2 := by
  intro c c2 hp hc
  obtain ⟨htag, hidem⟩ := update_graphics_node_idem addrs c c2 hc
  exact ⟨by rw [htag]; exact hp, hidem⟩

theorem serialNodeF_idem (la : Option String) (tname : String) :
    ∀ c c2, tcpTagged tname c = true →
      serial_source_update la c = .ok c2 →
      tcpTagged tname c2 = true ∧ serial_source_update la c2 = .ok c2 := by
  intro c c2 hp hc
  obtain ⟨cs2, hm, rfl⟩ := overChildren_ok _ _ _ hc
  constructor
  · unfold tcpTagged at hp ⊢
    rw [Xml.tag_withChildren, Xml.getAttr_withChildren]
    exact hp
  · rw [serial_source_update, overChildren_fix_iff,
      Xml.children_withChildren]
    refine mapFiltered_idem _ _ ?_ _ _ hm
    intro x x2 hpx hfx
    obtain ⟨htag, hidem⟩ := update_source_host_idem la x x2 hfx
    exact ⟨by rw [htag]; exact hpx, hidem⟩

theorem volumeF_idem (bdms : List Bdm) (gvc : String → String → Xml)
    (huniq : ∀ ci di, ((gvc ci di).children.map Xml.tag).Nodup) :
    ∀ c c2, (c.tag == "disk") = true →
      update_volume_disk bdms gvc c = .ok c2 →
      (c2.tag == "disk") = true ∧
        update_volume_disk bdms gvc c2 = .ok c2 := by
  intro c c2 hp hc
  obtain ⟨htag, hidem⟩ := update_volume_disk_idem bdms gvc huniq c c2 hc
  exact ⟨by rw [htag]; exact hp, hidem⟩

/-- C6 (amended): provided every destination fragment the provider
returns has pairwise distinct child tags, the full descriptor patch is
idempotent: whenever the first application succeeds, applying it again to
its own output with the same context and provider succeeds and leaves the
tree unchanged. -/
theorem get_updated_guest_xml_idem (md : MigrateData)
    (gvc : String → String → Xml) (doc t : Xml)
    (huniq : ∀ ci di, ((gvc ci di).children.map Xml.tag).Nodup)
    (h : get_updated_guest_xml md gvc doc = .ok t) :
    get_updated_guest_xml md gvc t = .ok t := by
  unfold get_updated_guest_xml at h
  cases hg : update_graphics_xml md doc with
  | error e => rw [hg] at h; cases h
  | ok a =>
      simp only [hg] at h
      cases hs : update_serial_xml md a with
      | error e => simp only [hs] at h; cases h
      | ok b =>
          simp only [hs] at h
          unfold update_serial_xml at hs
          cases hs1 : patchDoc (tcpTagged "serial")
              (serial_source_update (serial_listen_addr md)) a with
          | error e => simp only [hs1] at hs; cases hs
          | ok a1 =>
              simp only [hs1] at hs
              have hFGa : patchDoc (fun c => c.tag == "graphics")
                  (update_graphics_node (graphics_listen_addrs md)) doc
                  = .ok a := hg
              have hFGa_fix : patchDoc (fun c => c.tag == "graphics")
                  (update_graphics_node (graphics_listen_addrs md)) a
                  = .ok a :=
                patchDoc_idem _ _
                  (graphicsF_idem (graphics_listen_addrs md)) doc a hFGa
              have hGserial : ∀ c c2 : Xml, tcpTagged "serial" c = true →
                  serial_source_update (serial_listen_addr md) c = .ok c2 →
                  (c2.tag == "graphics") = (c.tag == "graphics") := by
                intro c c2 _ hgc
                obtain ⟨ht, _⟩ := overChildren_tag_attrs _ c c2 hgc
                rw [ht]
              have hGconsole : ∀ c c2 : Xml, tcpTagged "console" c = true →
                  serial_source_update (serial_listen_addr md) c = .ok c2 →
                  (c2.tag == "graphics") = (c.tag == "graphics") := by
                intro c c2 _ hgc
                obtain ⟨ht, _⟩ := overChildren_tag_attrs _ c c2 hgc
                rw [ht]
              have hGdisk : ∀ c c2 : Xml, (c.tag == "disk") = true →
                  update_volume_disk md.bdms gvc c = .ok c2 →
                  (c2.tag == "graphics") = (c.tag == "graphics") := by
                intro c c2 _ hgc
                obtain ⟨ht, _⟩ := update_volume_disk_preserves _ _ c c2 hgc
                rw [ht]
              have hdisjGS : ∀ c : Xml, tcpTagged "serial" c = true →
                  (c.tag == "graphics") = false := by
                intro c hq
                simp [tag_eq_of_tcpTagged "serial" c hq]
              have hdisjGC : ∀ c : Xml, tcpTagged "console" c = true →
                  (c.tag == "graphics") = false := by
                intro c hq
                simp [tag_eq_of_tcpTagged "console" c hq]
              have hdisjGD : ∀ c : Xml, (c.tag == "disk") = true →
                  (c.tag == "graphics") = false := by
                intro c hq
                have : c.tag = "disk" := by simpa using hq
                simp [this]
              have hFGa1_fix : patchDoc (fun c => c.tag == "graphics")
                  (update_graphics_node (graphics_listen_addrs md)) a1
                  = .ok a1 :=
                patchDoc_preserve _ _ _ _ hGserial hdisjGS a a1 hFGa_fix hs1
              have hFGb_fix : patchDoc (fun c => c.tag == "graphics")
                  (update_graphics_node (graphics_listen_addrs md)) b
                  = .ok b :=
                patchDoc_preserve _ _ _ _ hGconsole hdisjGC a1 b hFGa1_fix hs
              have hFGt_fix : patchDoc (fun c => c.tag == "graphics")
                  (update_graphics_node (graphics_listen_addrs md)) t
                  = .ok t :=
                patchDoc_preserve _ _ _ _ hGdisk hdisjGD b t hFGb_fix h
              have hSpres : ∀ tname : String,
                  ∀ c c2 : Xml, (c.tag == "disk") = true →
                  update_volume_disk md.bdms gvc c = .ok c2 →
                  tcpTagged tname c2 = tcpTagged tname c := by
                intro tname c c2 _ hgc
                obtain ⟨ht, hat⟩ := update_volume_disk_preserves _ _ c c2 hgc
                unfold tcpTagged
                rw [ht, hat]
              have hSCpres : ∀ tname : String,
                  ∀ c c2 : Xml, tcpTagged "console" c = true →
                  serial_source_update (serial_listen_addr md) c = .ok c2 →
                  tcpTagged tname c2 = tcpTagged tname c := by
                intro tname c c2 _ hgc
                obtain ⟨ht, hat⟩ := overChildren_tag_attrs _ c c2 hgc
                unfold tcpTagged
                rw [ht, hat]
              have hdisjSC : ∀ c : Xml, tcpTagged "console" c = true →
                  tcpTagged "serial" c = false := by
                intro c hq
                have := tag_eq_of_tcpTagged "console" c hq
                unfold tcpTagged
                simp [this]
              have hdisjSD : ∀ c : Xml, (c.tag == "disk") = true →
                  tcpTagged "serial" c = false := by
                intro c hq
                have : c.tag = "disk" := by simpa using hq
                unfold tcpTagged
                simp [this]
              have hdisjCD : ∀ c : Xml, (c.tag == "disk") = true →
                  tcpTagged "console" c = false := by
                intro c hq
                have : c.tag = "disk" := by simpa using hq
                unfold tcpTagged
                simp [this]
              have hFSa1_fix : patchDoc (tcpTagged "serial")
                  (serial_source_update (serial_listen_addr md)) a1
                  = .ok a1 :=
                patchDoc_idem _ _
                  (serialNodeF_idem (serial_listen_addr md) "serial") a a1 hs1
              have hFSb_fix : patchDoc (tcpTagged "serial")
                  (serial_source_update (serial_listen_addr md)) b
                  = .ok b :=
                patchDoc_preserve _ _ _ _ (hSCpres "serial") hdisjSC
                  a1 b hFSa1_fix hs
              have hFSt_fix : patchDoc (tcpTagged "serial")
                  (serial_source_update (serial_listen_addr md)) t
                  = .ok t :=
                patchDoc_preserve _ _ _ _ (hSpres "serial") hdisjSD
                  b t hFSb_fix h
              have hFCb_fix : patchDoc (tcpTagged "console")
                  (serial_source_update (serial_listen_addr md)) b
                  = .ok b :=
                patchDoc_idem _ _
                  (serialNodeF_idem (serial_listen_addr md) "console") a1 b hs
              have hFCt_fix : patchDoc (tcpTagged "console")
                  (serial_source_update (serial_listen_addr md)) t
                  = .ok t :=
                patchDoc_preserve _ _ _ _ (hSpres "console") hdisjCD
                  b t hFCb_fix h
              have hFDt_fix : patchDoc (fun c => c.tag == "disk")
                  (update_volume_disk md.bdms gvc) t = .ok t :=
                patchDoc_idem _ _ (volumeF_idem md.bdms gvc huniq) b t h
              unfold get_updated_guest_xml update_graphics_xml
                update_serial_xml update_volume_xml
              simp only [hFGt_fix, hFSt_fix, hFCt_fix]
              exact hFDt_fix

/-! ## Claim C6: counterexample and witness -/

/-- A context with one BlockDeviceMapping for serial S1 and no listen
addresses. -/
def mdOneBdm : MigrateData := ⟨none, none, none, [⟨"S1", some "ci", "di"⟩]⟩

/-- A provider fragment holding two same-tag address children besides its
serial leaf. -/
def fragDupTags : Xml := .elem "disk" [] none none
  [ .elem "serial" [] (some "S1") none []
  , .elem "address" [("unit", "0")] none none []
  , .elem "address" [("unit", "1")] none none [] ]

/-- A descriptor with a single disk carrying only its serial leaf. -/
def docOneDisk : Xml := .elem "domain" [] none none
  [ .elem "devices" [] none none
    [ .elem "disk" [] none none
      [ .elem "serial" [] (some "S1") none [] ] ] ]

/-- The result of the first application of the patch to docOneDisk: both
address children were appended (reversed) before the serial leaf. -/
def docOneDiskPatched : Xml := .elem "domain" [] none none
  [ .elem "devices" [] none none
    [ .elem "disk" [] none none
      [ .elem "address" [("unit", "1")] none none []
      , .elem "address" [("unit", "0")] none none []
      , .elem "serial" [] (some "S1") none [] ] ] ]

/-- Counterexample to C6 as stated: with a destination fragment holding
two children of the same tag, the first application of the full patch
succeeds, but re-applying it to its own output with the same context and
provider raises: the second pass finds two address items matching the
first address child, and after the first replacement the second
disk_dev.remove(item_src) call raises ValueError.  The patch is therefore
not idempotent in general. -/
theorem get_updated_guest_xml_not_idempotent :
    get_updated_guest_xml mdOneBdm (fun _ _ => fragDupTags) docOneDisk
        = .ok docOneDiskPatched ∧
    get_updated_guest_xml mdOneBdm (fun _ _ => fragDupTags)
        docOneDiskPatched
        = .error "ValueError: Element is not a child of this node." :=
  ⟨rfl, rfl⟩

/-- A provider fragment with pairwise distinct child tags. -/
def fragUniqueTags : Xml := .elem "disk" [] none none
  [ .elem "driver" [("name", "qemu")] none none []
  , .elem "serial" [] (some "S1") none [] ]

/-- First application of the patch to docOneDisk under fragUniqueTags. -/
def docOneDiskPatchedU : Xml := .elem "domain" [] none none
  [ .elem "devices" [] none none
    [ .elem "disk" [] none none
      [ .elem "driver" [("name", "qemu")] none none []
      , .elem "serial" [] (some "S1") none [] ] ] ]

/-- Witness for C6 (amended) at a concrete unique-tag instance. -/
theorem get_updated_guest_xml_idem_witness :
    (∀ ci di, (((fun _ _ => fragUniqueTags : String → String → Xml) ci
        di).children.map Xml.tag).Nodup) ∧
    get_updated_guest_xml mdOneBdm (fun _ _ => fragUniqueTags) docOneDisk
        = .ok docOneDiskPatchedU ∧
    get_updated_guest_xml mdOneBdm (fun _ _ => fragUniqueTags)
        docOneDiskPatchedU = .ok docOneDiskPatchedU :=
  have hnodup : ((fragUniqueTags.children).map Xml.tag).Nodup := by decide
  ⟨fun _ _ => hnodup, rfl,
    get_updated_guest_xml_idem mdOneBdm (fun _ _ => fragUniqueTags)
      docOneDisk docOneDiskPatchedU (fun _ _ => hnodup) rfl⟩

end Migration
